import Mathlib

/-!
Verification development for the explosion-generator bytecode compiler and
interpreter of `rts/Sim/Projectiles/ExplosionGenerator.cpp`, together with
its program cache (`Load` / `Reload` / `Explosion`).

Modelling conventions:
* C `float` values are idealised as exact rationals extended with the IEEE
  special values `inf`, `ninf` and `nan`; the arithmetic on the special
  values follows IEEE-754 (x/0, 0*inf, x-nan, floor of specials), while
  finite arithmetic is exact (rounding is not modelled; no negative zero).
* `math::sin`, `math::pow` and `gu->RandFloat()` are external library and
  RNG calls; the execution environment supplies them as functions, so every
  theorem holds for every implementation of them.
* Machine integers are modelled as `Nat`/`Int` with explicit `% 2 ^ w`
  where the C++ code truncates (`boost::uint16_t`, `unsigned int`,
  `std::string::size_type` wrap-around).
* The raw writes that `ExecuteExplosionCode` performs into the spawned
  instance's memory are recorded as an ordered trace of typed writes.
-/

/-- Idealised C `float`: an exact rational, or one of the IEEE special
values (positive infinity, negative infinity, NaN). -/
inductive FP where
  | fin (q : ℚ)
  | inf
  | ninf
  | nan
deriving DecidableEq

namespace FP

/-- IEEE negation. -/
def neg : FP → FP
  | fin q => fin (-q)
  | inf => ninf
  | ninf => inf
  | nan => nan

/-- IEEE addition (finite part exact). -/
def add : FP → FP → FP
  | nan, _ => nan
  | _, nan => nan
  | inf, ninf => nan
  | ninf, inf => nan
  | inf, _ => inf
  | _, inf => inf
  | ninf, _ => ninf
  | _, ninf => ninf
  | fin a, fin b => fin (a + b)

/-- IEEE subtraction, `x - y = x + (-y)`. -/
def sub (x y : FP) : FP := add x (neg y)

/-- IEEE multiplication; `0 * ±inf = nan`. -/
def mul : FP → FP → FP
  | nan, _ => nan
  | _, nan => nan
  | fin a, fin b => fin (a * b)
  | fin a, inf => if a = 0 then nan else if 0 < a then inf else ninf
  | inf, fin a => if a = 0 then nan else if 0 < a then inf else ninf
  | fin a, ninf => if a = 0 then nan else if 0 < a then ninf else inf
  | ninf, fin a => if a = 0 then nan else if 0 < a then ninf else inf
  | inf, inf => inf
  | ninf, ninf => inf
  | inf, ninf => ninf
  | ninf, inf => ninf

/-- IEEE division; `x / 0` is `nan` for `x = 0` and a signed infinity
otherwise (only a positive zero exists in this model). -/
def div : FP → FP → FP
  | nan, _ => nan
  | _, nan => nan
  | fin a, fin b =>
      if b = 0 then (if a = 0 then nan else if 0 < a then inf else ninf)
      else fin (a / b)
  | fin _, inf => fin 0
  | fin _, ninf => fin 0
  | inf, fin b => if 0 ≤ b then inf else ninf
  | ninf, fin b => if 0 ≤ b then ninf else inf
  | inf, inf => nan
  | inf, ninf => nan
  | ninf, inf => nan
  | ninf, ninf => nan

/-- `math::floor` on the idealised floats. -/
def floorF : FP → FP
  | fin q => fin (Rat.floor q : ℤ)
  | inf => inf
  | ninf => ninf
  | nan => nan

/-- C cast `(int) val`: truncation toward zero.  The cast is undefined
behaviour on NaN/infinities and out-of-range values; the model records the
mathematical truncation (0 for the special values). -/
def toCInt : FP → ℤ
  | fin q => if 0 ≤ q then Rat.floor q else -Rat.floor (-q)
  | _ => 0

/-- IEEE `<` as a boolean: false whenever NaN is involved. -/
def ltB : FP → FP → Bool
  | nan, _ => false
  | _, nan => false
  | fin a, fin b => decide (a < b)
  | fin _, inf => true
  | fin _, ninf => false
  | inf, _ => false
  | ninf, ninf => false
  | ninf, _ => true

/-- IEEE `<=` as a boolean: false whenever NaN is involved. -/
def leB : FP → FP → Bool
  | nan, _ => false
  | _, nan => false
  | fin a, fin b => decide (a ≤ b)
  | fin _, inf => true
  | fin _, ninf => false
  | inf, inf => true
  | inf, _ => false
  | ninf, _ => true

end FP

/-- `SafeDivide`.  Modelled from the spec: the helper is declared in a
header that is not part of the provided sources; the spec requires a
"division-by-zero-safe policy: treat as 0" (`DISCRETE` treats `x / 0`,
including `0 / 0`, as 0). -/
def SafeDivide (a b : FP) : FP :=
  if b = FP.fin 0 then FP.fin 0 else FP.div a b

/-- One decoded bytecode instruction.  In the C++ stream every instruction
is a one-byte opcode tag followed by a fixed-width little-endian operand
(4-byte float, 4-byte int, 2-byte unsigned offset, or a pointer); the model
works on decoded instructions, recording the 16-bit truncation of offsets
at emission time. -/
inductive Instr where
  | opAdd (v : FP)
  | opRand (v : FP)
  | opDamage (v : FP)
  | opIndex (v : FP)
  | opSawtooth (v : FP)
  | opDiscrete (v : FP)
  | opSine (v : FP)
  | opPow (v : FP)
  | opYank (i : ℤ)
  | opMultiply (i : ℤ)
  | opAddBuff (i : ℤ)
  | opPowBuff (i : ℤ)
  | opStoreI (ofs : ℕ)
  | opStoreF (ofs : ℕ)
  | opStoreC (ofs : ℕ)
  | opDir (ofs : ℕ)
  | opLoadP (p : ℕ)
  | opStoreP (ofs : ℕ)
  | opEnd
deriving DecidableEq

/-- One raw write performed into the destination instance's memory,
tagged with the width class the interpreter used. -/
inductive Write where
  | wInt (ofs : ℕ) (v : ℤ)
  | wFloat (ofs : ℕ) (v : FP)
  | wByte (ofs : ℕ) (v : ℕ)
  | wVec (ofs : ℕ) (v : FP × FP × FP)
  | wPtr (ofs : ℕ) (p : Option ℕ)
deriving DecidableEq

/-- Execution environment of `ExecuteExplosionCode`: the `damage` input,
the spawn index, the direction vector, the stream of `gu->RandFloat()`
draws, and the C math library functions `sin` and `pow` (kept abstract;
every theorem holds for any implementation). -/
structure ExecEnv where
  damage : FP
  spawnIndex : ℤ
  dir : FP × FP × FP
  rands : ℕ → FP
  sinF : FP → FP
  powF : FP → FP → FP

/-- Interpreter state: the scalar accumulator `val`, the pointer
accumulator `ptr`, the 16-slot scratch register file `buffer` (its initial
contents are caller-supplied, mirroring the uninitialised C array), the
position in the random stream, the trace of raw writes, and a flag that
records whether any register access fell outside `buffer`'s bounds (such
an access is an out-of-bounds array access in the C++ code). -/
structure ExecState where
  val : FP
  ptr : Option ℕ
  buffer : List FP
  randIdx : ℕ
  writes : List Write
  oobReg : Bool
deriving DecidableEq

/-- Read `buffer[i]`; flags indices outside `[0, 16)`. -/
def regRead (buf : List FP) (i : ℤ) : FP × Bool :=
  if 0 ≤ i ∧ i < 16 then (buf.getD i.toNat (FP.fin 0), false) else (FP.fin 0, true)

/-- Write `buffer[i] = v`; flags indices outside `[0, 16)`. -/
def regWrite (buf : List FP) (i : ℤ) (v : FP) : List FP × Bool :=
  if 0 ≤ i ∧ i < 16 then (buf.set i.toNat v, false) else (buf, true)

/-- One step of `CCustomExplosionGenerator::ExecuteExplosionCode`'s switch
(every case except `OP_END`, which the driver handles). -/
def step (env : ExecEnv) (s : ExecState) : Instr → ExecState
  | .opAdd v => { s with val := s.val.add v }
  | .opRand v =>
      { s with val := s.val.add ((env.rands s.randIdx).mul v), randIdx := s.randIdx + 1 }
  | .opDamage v => { s with val := s.val.add (env.damage.mul v) }
  | .opIndex v => { s with val := s.val.add ((FP.fin env.spawnIndex).mul v) }
  | .opSawtooth v => { s with val := s.val.sub (v.mul (FP.floorF (s.val.div v))) }
  | .opDiscrete v => { s with val := v.mul (FP.floorF (SafeDivide s.val v)) }
  | .opSine v => { s with val := v.mul (env.sinF s.val) }
  | .opPow v => { s with val := env.powF s.val v }
  | .opYank i =>
      let r := regWrite s.buffer i s.val
      { s with buffer := r.1, val := FP.fin 0, oobReg := s.oobReg || r.2 }
  | .opMultiply i =>
      let r := regRead s.buffer i
      { s with val := s.val.mul r.1, oobReg := s.oobReg || r.2 }
  | .opAddBuff i =>
      let r := regRead s.buffer i
      { s with val := s.val.add r.1, oobReg := s.oobReg || r.2 }
  | .opPowBuff i =>
      let r := regRead s.buffer i
      { s with val := env.powF s.val r.1, oobReg := s.oobReg || r.2 }
  | .opStoreI ofs =>
      { s with writes := s.writes ++ [Write.wInt ofs s.val.toCInt], val := FP.fin 0 }
  | .opStoreF ofs =>
      { s with writes := s.writes ++ [Write.wFloat ofs s.val], val := FP.fin 0 }
  | .opStoreC ofs =>
      { s with writes := s.writes ++ [Write.wByte ofs (s.val.toCInt.emod 256).toNat],
               val := FP.fin 0 }
  | .opDir ofs => { s with writes := s.writes ++ [Write.wVec ofs env.dir] }
  | .opLoadP p => { s with ptr := some p }
  | .opStoreP ofs =>
      { s with writes := s.writes ++ [Write.wPtr ofs s.ptr], ptr := none }
  | .opEnd => s

/-- Run a decoded stream front-to-back until `OP_END` (compiled streams
always end with it; running off the decoded list also stops). -/
def execCode (env : ExecEnv) : List Instr → ExecState → ExecState
  | [], s => s
  | .opEnd :: _, s => s
  | i :: rest, s => execCode env rest (step env s i)

/-- State at entry of `ExecuteExplosionCode`: `val = 0.0f`, `ptr = NULL`,
uninitialised register file supplied by the caller, empty write trace. -/
def initState (initBuf : List FP) : ExecState :=
  ⟨FP.fin 0, none, initBuf, 0, [], false⟩

/-- `CCustomExplosionGenerator::ExecuteExplosionCode` on a decoded
stream: the final interpreter state (its `writes` field is the sequence of
raw writes performed into the destination instance). -/
def ExecuteExplosionCode (env : ExecEnv) (code : List Instr) (initBuf : List FP) : ExecState :=
  execCode env code (initState initBuf)

/-! ## The expression compiler (`CCustomExplosionGenerator::ParseExplosionCode`) -/

/-- C locale `isspace` (skipped by `strtod` / `strtol`). -/
def isSpaceC (c : Char) : Bool :=
  c = ' ' || c = '\t' || c = '\n' || c = Char.ofNat 11 || c = Char.ofNat 12 || c = '\r'

/-- Numeric value of a digit run. -/
def digitsVal (ds : List Char) : ℕ :=
  ds.foldl (fun a c => a * 10 + (c.toNat - 48)) 0

/-- Model of C `strtol(s, &endp, 10)` on the decimal forms: skipped
whitespace, an optional sign, then a digit run.  Returns the value and the
number of characters consumed (`endp - s`); no conversion yields `(0, 0)`.
Long-range overflow clamping is not modelled (the caller clamps to
`[0, 16]` anyway). -/
def strtolModel (cs : List Char) : ℤ × ℕ :=
  let ws := (cs.takeWhile isSpaceC).length
  let afterWs := cs.drop ws
  let sgn : ℤ := match afterWs with
    | '-' :: _ => -1
    | _ => 1
  let signLen : ℕ := match afterWs with
    | '-' :: _ => 1
    | '+' :: _ => 1
    | _ => 0
  let ds := (afterWs.drop signLen).takeWhile Char.isDigit
  if ds.isEmpty then (0, 0)
  else (sgn * (digitsVal ds : ℤ), ws + signLen + ds.length)

/-- `10 ^ e` over ℚ for a signed exponent. -/
def pow10 (e : ℤ) : ℚ :=
  if 0 ≤ e then ((10 : ℚ) ^ e.toNat) else 1 / ((10 : ℚ) ^ (-e).toNat)

/-- Model of C `strtod(s, &endp)` on the plain decimal forms: skipped
whitespace, an optional sign, a digit run with an optional fraction
(at least one digit on one side of the point), and an optional exponent
(`e`/`E`, optional sign, digit run — consumed only when a digit follows).
Returns the exact value and the number of characters consumed; no
conversion yields `(0, 0)`.  Hexadecimal, `inf` and `nan` forms are not
modelled (the scripts' literals are plain decimals). -/
def strtodModel (cs : List Char) : ℚ × ℕ :=
  let ws := (cs.takeWhile isSpaceC).length
  let afterWs := cs.drop ws
  let sgn : ℚ := match afterWs with
    | '-' :: _ => -1
    | _ => 1
  let signLen : ℕ := match afterWs with
    | '-' :: _ => 1
    | '+' :: _ => 1
    | _ => 0
  let mant := afterWs.drop signLen
  let d1 := mant.takeWhile Char.isDigit
  let afterD1 := mant.drop d1.length
  let hasDot : Bool := match afterD1 with
    | '.' :: _ => true
    | _ => false
  let d2 := if hasDot then (afterD1.drop 1).takeWhile Char.isDigit else []
  if d1.isEmpty ∧ (¬ hasDot ∨ d2.isEmpty) then (0, 0)
  else
    let mantLen := d1.length + (if hasDot then 1 + d2.length else 0)
    let afterMant := mant.drop mantLen
    let expDigits := match afterMant with
      | 'e' :: '-' :: t => (t.takeWhile Char.isDigit, 2, true)
      | 'e' :: '+' :: t => (t.takeWhile Char.isDigit, 2, false)
      | 'e' :: t => (t.takeWhile Char.isDigit, 1, false)
      | 'E' :: '-' :: t => (t.takeWhile Char.isDigit, 2, true)
      | 'E' :: '+' :: t => (t.takeWhile Char.isDigit, 2, false)
      | 'E' :: t => (t.takeWhile Char.isDigit, 1, false)
      | _ => ([], 0, false)
    let expLen := if expDigits.1.isEmpty then 0 else expDigits.2.1 + expDigits.1.length
    let expVal : ℤ :=
      if expDigits.1.isEmpty then 0
      else (if expDigits.2.2 then -(digitsVal expDigits.1 : ℤ) else (digitsVal expDigits.1 : ℤ))
    let base : ℚ := (digitsVal d1 : ℚ) + (digitsVal d2 : ℚ) / ((10 : ℚ) ^ d2.length)
    (sgn * base * pow10 expVal, ws + signLen + mantLen + expLen)

/-- The single-letter mnemonics of the mini-language (everything except
the bare-literal `OP_ADD` case). -/
inductive TokKind where
  | tIndex | tRand | tDamage | tSawtooth | tDiscrete | tSine | tPow
  | tYank | tMultiply | tAddBuff | tPowBuff
deriving DecidableEq

/-- The mnemonic table of the tokenizer's if-chain. -/
def charOp (c : Char) : Option TokKind :=
  if c = 'i' then some .tIndex
  else if c = 'r' then some .tRand
  else if c = 'd' then some .tDamage
  else if c = 'm' then some .tSawtooth
  else if c = 'k' then some .tDiscrete
  else if c = 's' then some .tSine
  else if c = 'p' then some .tPow
  else if c = 'y' then some .tYank
  else if c = 'x' then some .tMultiply
  else if c = 'a' then some .tAddBuff
  else if c = 'q' then some .tPowBuff
  else none

/-- `useInt`: the register-indexing mnemonics parse their operand with
`strtol` instead of `strtod`. -/
def TokKind.useInt : TokKind → Bool
  | .tYank | .tMultiply | .tAddBuff | .tPowBuff => true
  | _ => false

/-- Build the emitted instruction from a mnemonic and the parsed operand
(the float operand for the `strtod` mnemonics, the clamped int operand for
the register-indexing ones). -/
def TokKind.emit : TokKind → FP → ℤ → Instr
  | .tIndex, v, _ => .opIndex v
  | .tRand, v, _ => .opRand v
  | .tDamage, v, _ => .opDamage v
  | .tSawtooth, v, _ => .opSawtooth v
  | .tDiscrete, v, _ => .opDiscrete v
  | .tSine, v, _ => .opSine v
  | .tPow, v, _ => .opPow v
  | .tYank, _, i => .opYank i
  | .tMultiply, _, i => .opMultiply i
  | .tAddBuff, _, i => .opAddBuff i
  | .tPowBuff, _, i => .opPowBuff i

/-- Compiler-side failure: `contentError` models a thrown `content_error`;
`outOfFuel` models non-termination of the C++ tokenizer loop (reachable,
e.g. a lone `-` makes `strtod` consume nothing and the loop spin). -/
inductive PErr where
  | contentError
  | outOfFuel
deriving DecidableEq

/-- The scalar tokenizer: the `while (p < script.length())` loop of
`ParseExplosionCode`'s `BasicType` branch.  Whitespace (`' '`) is skipped;
a recognized mnemonic consumes the following literal as operand (the
register-indexing ones clamp it with `std::max(0, std::min(16, v))`); a
bare literal (digit, `.` or `-`) is `OP_ADD`; an unknown character only
logs a warning; a mnemonic as the final character emits nothing. -/
def scalarTokens (script : List Char) : ℕ → ℕ → Except PErr (List Instr)
  | 0, _ => .error .outOfFuel
  | fuel + 1, p =>
    if p < script.length then
      if script.getD p ' ' = ' ' then scalarTokens script fuel (p + 1)
      else
        match charOp (script.getD p ' ') with
        | some k =>
            if script.length ≤ p + 1 then scalarTokens script fuel (p + 1)
            else if k.useInt then
              match scalarTokens script fuel (p + 1 + (strtolModel (script.drop (p + 1))).2) with
              | .error e => .error e
              | .ok rest =>
                  .ok (k.emit (FP.fin 0)
                        (max 0 (min 16 (strtolModel (script.drop (p + 1))).1)) :: rest)
            else
              match scalarTokens script fuel (p + 1 + (strtodModel (script.drop (p + 1))).2) with
              | .error e => .error e
              | .ok rest =>
                  .ok (k.emit (FP.fin (strtodModel (script.drop (p + 1))).1) 0 :: rest)
        | none =>
            if (script.getD p ' ').isDigit ∨ script.getD p ' ' = '.' ∨ script.getD p ' ' = '-' then
              match scalarTokens script fuel (p + (strtodModel (script.drop p)).2) with
              | .error e => .error e
              | .ok rest => .ok (Instr.opAdd (FP.fin (strtodModel (script.drop p)).1) :: rest)
            else scalarTokens script fuel (p + 1)
    else .ok []

/-- The reflected basic types accepted by the compiler; `crIllegal` stands
for every other `creg` basic id (those raise a `content_error`). -/
inductive BasicId where
  | crInt | crBool | crFloat | crUChar | crIllegal
deriving DecidableEq

/-- The trailing store selected by the field's basic type
(`crInt`/`crBool` store as int, `crFloat` as float, `crUChar` as byte). -/
def storeInstr (id : BasicId) (ofs : ℕ) : Instr :=
  match id with
  | .crInt => .opStoreI ofs
  | .crBool => .opStoreI ofs
  | .crFloat => .opStoreF ofs
  | .crUChar => .opStoreC ofs
  | .crIllegal => .opStoreI ofs

/-- The opaque resource-handle types the else-branch matches by name;
`unknownRes` stands for any other non-basic, non-object, non-array type
(for these the chain matches nothing and emits no code). -/
inductive ResKind where
  | atlasedTexture | groundFXTexture | colorMap | explosionGenerator | unknownRes
deriving DecidableEq

/-- The reflected type descriptor driving the schema navigation.  The
`object` members are the flattened walk `for (c = objectClass; c; c = c->base)`
over `c->members`: the derived class's members first, then each ancestor's,
each with its relative byte offset — the flattening preserves both the
traversal order and the early-break behaviour of the nested loops. -/
inductive CregType where
  | basic (id : BasicId)
  | object (members : List (ℕ × CregType))
  | staticArray (size elemSize : ℕ) (elem : CregType)
  | resource (k : ResKind)

/-- External resource registries (texture atlas, ground-FX atlas, colour
map cache, nested-generator registry): resolving a name yields an opaque
pointer handle. -/
structure ParseEnv where
  resolve : ResKind → String → ℕ

/-- `std::string::npos`. -/
def NPOS : ℕ := 2 ^ 64 - 1

/-- `std::string::find(ch, start)`: first index `≥ start` holding `ch`,
or `NPOS`. -/
def strFind (cs : List Char) (ch : Char) (start : ℕ) : ℕ :=
  match (cs.drop start).indexOf? ch with
  | some i => start + i
  | none => NPOS

/-- `std::string::substr(start, count)` (the code only calls it with
`start ≤ length`; an `NPOS`-sized count takes the rest). -/
def substrModel (cs : List Char) (start count : ℕ) : List Char :=
  (cs.drop start).take count

/-- The `script.substr(0, script.find(';', 0)) == "dir"` keyword test that
`ParseExplosionCode` performs before everything else. -/
def dirKeyword (script : List Char) : Bool :=
  substrModel script 0 (strFind script ';' 0) = "dir".toList

mutual

/-- `CCustomExplosionGenerator::ParseExplosionCode` (the emitted opcode
stream for one field), dispatching on the reflected type exactly as the
C++ `dynamic_cast` chain does, after the `"dir"` keyword check.  Offsets
are truncated to 16 bits at emission (`boost::uint16_t ofs = offset`). -/
def parseType (env : ParseEnv) (fuel : ℕ) (offset : ℕ) (t : CregType)
    (script : List Char) : Except PErr (List Instr) :=
  if dirKeyword script then .ok [Instr.opDir (offset % 2 ^ 16)]
  else
    match t with
    | .basic id =>
        if id = .crIllegal then .error .contentError
        else
          match scalarTokens script fuel 0 with
          | .error e => .error e
          | .ok toks => .ok (toks ++ [storeInstr id (offset % 2 ^ 16)])
    | .object members => parseObjMembers env fuel offset script members 0
    | .staticArray size elemSize elem =>
        parseArrElems env fuel offset script elemSize elem size 0 0
    | .resource k =>
        match k with
        | .unknownRes => .ok []
        | _ =>
            .ok [Instr.opLoadP
                   (env.resolve k (String.mk (substrModel script 0 (strFind script ';' 0)))),
                 Instr.opStoreP (offset % 2 ^ 16)]
termination_by sizeOf t

/-- The member loop of the `ObjectInstanceType` branch: per member,
`end = find(',', start + 1)`, compile `substr(start, end - start)` at
`offset + member.offset`, then `start = end + 1` — computed in
`std::string::size_type`, so `npos + 1` wraps to 0 — and break once
`start >= length`. -/
def parseObjMembers (env : ParseEnv) (fuel : ℕ) (offset : ℕ) (script : List Char) :
    List (ℕ × CregType) → ℕ → Except PErr (List Instr)
  | [], _ => .ok []
  | (mOfs, mTy) :: rest, start => do
      let e := strFind script ',' (start + 1)
      let sub := substrModel script start (e - start)
      let c1 ← parseType env fuel (offset + mOfs) mTy sub
      let start' := (e + 1) % 2 ^ 64
      if script.length ≤ start' then pure c1
      else do
        let c2 ← parseObjMembers env fuel offset script rest start'
        pure (c1 ++ c2)
termination_by ms _ => sizeOf ms

/-- The element loop of the `StaticArrayBaseType` branch (same cursor
convention as the member loop, element `i` at `offset + elemSize * i`). -/
def parseArrElems (env : ParseEnv) (fuel : ℕ) (offset : ℕ) (script : List Char)
    (elemSize : ℕ) (elem : CregType) :
    ℕ → ℕ → ℕ → Except PErr (List Instr)
  | 0, _, _ => .ok []
  | remaining + 1, i, start => do
      let e := strFind script ',' (start + 1)
      let sub := substrModel script start (e - start)
      let c1 ← parseType env fuel (offset + elemSize * i) elem sub
      let start' := (e + 1) % 2 ^ 64
      if script.length ≤ start' then pure c1
      else do
        let c2 ← parseArrElems env fuel offset script elemSize elem remaining (i + 1) start'
        pure (c1 ++ c2)
termination_by remaining _ _ => sizeOf elem + remaining

end

/-! ## The program cache (`Load` / `Reload`) and `Explosion` -/

/-- `ProjectileSpawnInfo`: one compiled spawn kind (the projectile class
pointer is outside the model; the flags, count and the compiled stream are
what `Explosion` consumes). -/
structure ProjectileSpawnInfo where
  flags : ℕ
  count : ℤ
  code : List Instr
deriving DecidableEq

/-- `GroundFlashInfo`: the flat ground-flash parameter record. -/
structure GroundFlashInfo where
  flashSize : FP
  flashAlpha : FP
  circleGrowth : FP
  circleAlpha : FP
  ttl : ℤ
  flags : ℕ
  color : FP × FP × FP
deriving DecidableEq

/-- Zero-initialised `GroundFlashInfo` (the default-constructed record a
definition without a `groundflash` table keeps). -/
def defaultGroundFlash : GroundFlashInfo :=
  ⟨FP.fin 0, FP.fin 0, FP.fin 0, FP.fin 0, 0, 0, (FP.fin 0, FP.fin 0, FP.fin 0)⟩

/-- `CEGData`: one compiled definition entry. -/
structure CEGData where
  projectileSpawn : List ProjectileSpawnInfo
  groundFlash : GroundFlashInfo
  useDefaultExplosions : Bool
deriving DecidableEq

/-- An empty `CEGData`, used as the out-of-range default of list reads
(the C++ code only indexes in range). -/
def defaultCEG : CEGData := ⟨[], defaultGroundFlash, false⟩

/-- `CCustomExplosionGenerator`'s cache: `explosionIDs` models the
`std::map<std::string, unsigned int>` as an association list kept in key
order (all states are built by `mapInsert` from the empty map), and
`explosionData` the `std::vector<CEGData>`. -/
structure CEGState where
  explosionIDs : List (String × ℕ)
  explosionData : List CEGData
deriving DecidableEq

/-- `std::map::find`. -/
def mapFind : List (String × ℕ) → String → Option ℕ
  | [], _ => none
  | (k', v') :: t, k => if k = k' then some v' else mapFind t k

/-- Lexicographic order on character lists (the `std::string` `operator<`
that orders `std::map` keys; identical on ASCII tags). -/
def charListLt : List Char → List Char → Bool
  | [], [] => false
  | [], _ :: _ => true
  | _ :: _, [] => false
  | a :: as, b :: bs =>
      if a.toNat < b.toNat then true
      else if b.toNat < a.toNat then false
      else charListLt as bs

/-- `std::string` comparison ordering the id map's keys. -/
def strLt (a b : String) : Bool := charListLt a.data b.data

/-- `std::map::operator[]` assignment: replace the key's entry or insert
it at its ordered position. -/
def mapInsert : List (String × ℕ) → String → ℕ → List (String × ℕ)
  | [], k, v => [(k, v)]
  | (k', v') :: t, k, v =>
      if k = k' then (k, v) :: t
      else if strLt k k' then (k, v) :: (k', v') :: t
      else (k', v') :: mapInsert t k v

/-- `std::map::erase(key)`. -/
def mapErase : List (String × ℕ) → String → List (String × ℕ)
  | [], _ => []
  | (k', v') :: t, k => if k = k' then mapErase t k else (k', v') :: mapErase t k

/-- The reserved out-of-band identifiers.  Modelled from the spec: the
header defining them is not among the provided sources; the spec fixes
three distinct reserved values outside the small non-negative identifier
range ("invalid", "standard", "spawner"), modelled as the unsigned-int
values `-1u`, `-2u`, `-3u`. -/
def EXPLOSION_ID_INVALID : ℕ := 2 ^ 32 - 1

/-- Reserved identifier routing to the standard (non-custom) generator. -/
def EXPLOSION_ID_STANDARD : ℕ := 2 ^ 32 - 2

/-- Reserved identifier of transient spawner instances. -/
def EXPLOSION_ID_SPAWNER : ℕ := 2 ^ 32 - 3

/-- `CCustomExplosionGenerator::Load`.  The surrounding `LuaTable`
machinery (definition source text, schema lookup, per-spawn compilation)
is the external parser collaborator; `defs` supplies its net result for a
tag: `none` models an invalid table (`!expTable.IsValid()`, the function
returns `EXPLOSION_ID_INVALID` and changes nothing), `some d` the
compiled `CEGData`.  A cached tag returns its existing identifier without
recompiling; a fresh compile is appended to `explosionData` and the tag
mapped to the new last index. -/
def Load (defs : String → Option CEGData) (tag : String) (st : CEGState) :
    ℕ × CEGState :=
  match mapFind st.explosionIDs tag with
  | some id => (id, st)
  | none =>
      match defs tag with
      | none => (EXPLOSION_ID_INVALID, st)
      | some d =>
          let data' := st.explosionData ++ [d]
          (data'.length - 1, ⟨mapInsert st.explosionIDs tag (data'.length - 1), data'⟩)

/-- `CCustomExplosionGenerator::Reload`.  Empty tag: copy the id map,
`Unload` + `ClearCache` (both id map and data vector are cleared), then
`Load` every old tag in `std::map` iteration order (key order).  Specific
tag: the entry is swapped against the vector's last element and popped,
the tag erased and recompiled through `Load`; on failure the old entry and
id are restored, on success the tag is remapped to its old index and (when
more than one CEG is cached) the freshly pushed data swapped into the
vacated slot while the displaced last element is put back. -/
def Reload (defs : String → Option CEGData) (tag : String) (st : CEGState) :
    CEGState :=
  if tag = "" then
    st.explosionIDs.foldl (fun acc p => (Load defs p.1 acc).2) ⟨[], []⟩
  else
    match mapFind st.explosionIDs tag with
    | none => st
    | some cegIndex =>
        let numCEGs := st.explosionData.length
        let oldCEG := st.explosionData.getD cegIndex defaultCEG
        let tmpCEG := st.explosionData.getD (numCEGs - 1) defaultCEG
        let st1 : CEGState :=
          ⟨mapErase st.explosionIDs tag,
           (st.explosionData.set cegIndex tmpCEG).dropLast⟩
        let r := Load defs tag st1
        if r.1 = EXPLOSION_ID_INVALID then
          ⟨mapInsert r.2.explosionIDs tag cegIndex,
           (r.2.explosionData ++ [tmpCEG]).set cegIndex oldCEG⟩
        else
          let ids2 := mapInsert r.2.explosionIDs tag cegIndex
          if 1 < numCEGs then
            let d := r.2.explosionData
            ⟨ids2, (d.set cegIndex (d.getD (numCEGs - 1) defaultCEG)).set (numCEGs - 1) tmpCEG⟩
          else ⟨ids2, r.2.explosionData⟩

/-- `SPW_*` environment-flag bits.  Modelled from the spec: the enum lives
in the missing header; the spec fixes six distinct OR-able bits. -/
def SPW_GROUND : ℕ := 1

/-- Water flag bit. -/
def SPW_WATER : ℕ := 2

/-- Air flag bit. -/
def SPW_AIR : ℕ := 4

/-- Underwater flag bit. -/
def SPW_UNDERWATER : ℕ := 8

/-- Unit-hit flag bit. -/
def SPW_UNIT : ℕ := 16

/-- No-unit flag bit. -/
def SPW_NO_UNIT : ℕ := 32

/-- `CCustomExplosionGenerator::GetFlagsFromHeight`: the mutually
exclusive height/altitude classification. -/
def GetFlagsFromHeight (height altitude : FP) : ℕ :=
  if FP.ltB (FP.fin 0) height && FP.leB (FP.fin 20) altitude then SPW_AIR
  else if FP.ltB (FP.fin 0) height && FP.leB (FP.fin (-1)) altitude then SPW_GROUND
  else if FP.ltB (FP.fin (-5)) height && FP.leB (FP.fin (-1)) altitude then SPW_WATER
  else if FP.leB height (FP.fin (-5)) && FP.leB (FP.fin (-1)) altitude then SPW_UNDERWATER
  else 0

/-- One spawned instance as `Explosion` produces it: which spawn kind,
which spawn index, and the interpreter's final state for it (the write
trace populating the fresh instance). -/
structure SpawnedProjectile where
  spawnKind : ℕ
  instanceIdx : ℕ
  result : ExecState
deriving DecidableEq

/-- Environment of one `Explosion` call: the world queries and external
collaborators it consults.  `randsFor k c` is the `gu->RandFloat()`
sub-stream the instance `c` of spawn kind `k` observes; `standardResult`
is the boolean returned by the delegated `globalSEG->Explosion` call;
`initBuf` the (uninitialised) register file contents. -/
structure ExplosionEnv where
  posY : FP
  groundHeight : FP
  damage : FP
  dir : FP × FP × FP
  hitUnit : Bool
  particleSaturation : FP
  standardResult : Bool
  randsFor : ℕ → ℕ → ℕ → FP
  sinF : FP → FP
  powF : FP → FP → FP
  initBuf : List FP

/-- The instances one `ProjectileSpawnInfo` produces: `count` fresh
instances, each populated by one interpreter run with its spawn index. -/
def spawnInstances (env : ExplosionEnv) (k : ℕ) (psi : ProjectileSpawnInfo) :
    List SpawnedProjectile :=
  (List.range psi.count.toNat).map fun c =>
    ⟨k, c,
     ExecuteExplosionCode
       ⟨env.damage, (c : ℤ), env.dir, env.randsFor k c, env.sinF, env.powF⟩
       psi.code env.initBuf⟩

/-- `CCustomExplosionGenerator::Explosion`.  Returns the boolean result,
the spawned instances, the ground flash (if any) and the cache state —
which the function never mutates (it only reads `explosionData`).
`EXPLOSION_ID_SPAWNER` resolves to the last cached entry via unsigned
arithmetic: `size() - 1` in `size_t`, assigned to an `unsigned int`. -/
def Explosion (env : ExplosionEnv) (st : CEGState) (explosionID : ℕ) :
    Bool × List SpawnedProjectile × Option GroundFlashInfo × CEGState :=
  if explosionID = EXPLOSION_ID_STANDARD then (env.standardResult, [], none, st)
  else if explosionID = EXPLOSION_ID_INVALID then (false, [], none, st)
  else
    let eid :=
      if explosionID = EXPLOSION_ID_SPAWNER then
        ((st.explosionData.length + (2 ^ 64 - 1)) % 2 ^ 64) % 2 ^ 32
      else explosionID
    if st.explosionData.length ≤ eid then (false, [], none, st)
    else
      let altitude := env.posY.sub env.groundHeight
      let flags0 := GetFlagsFromHeight env.posY altitude
      let groundExplosion := flags0 &&& SPW_GROUND ≠ 0
      let flags := flags0 ||| (if env.hitUnit then SPW_UNIT else SPW_NO_UNIT)
      let ceg := st.explosionData.getD eid defaultCEG
      let spawns :=
        (List.range ceg.projectileSpawn.length).flatMap fun a =>
          let psi := ceg.projectileSpawn.getD a ⟨0, 0, []⟩
          if psi.flags &&& flags = 0 then []
          else if FP.ltB (FP.fin 1) env.particleSaturation then []
          else spawnInstances env a psi
      let gf := ceg.groundFlash
      let flash :=
        if groundExplosion ∧ 0 < gf.ttl ∧ FP.ltB (FP.fin 1) gf.flashSize then some gf
        else none
      let ret := if ceg.useDefaultExplosions then env.standardResult else true
      (ret, spawns, flash, st)

/-! ## Helper notions for the theorems -/

deriving instance DecidableEq for Except

/-- The arithmetic instructions: exactly the ones the scalar tokenizer's
loop can emit (they update `val`/`buffer` but never write to the
destination instance). -/
def isArith : Instr → Bool
  | .opAdd _ | .opRand _ | .opDamage _ | .opIndex _ | .opSawtooth _ | .opDiscrete _
  | .opSine _ | .opPow _ | .opYank _ | .opMultiply _ | .opAddBuff _ | .opPowBuff _ => true
  | _ => false

/-- The store-family instructions of the scalar path. -/
def isStore : Instr → Bool
  | .opStoreI _ | .opStoreF _ | .opStoreC _ => true
  | _ => false

/-- Does a write land at offset `o` with the width class the basic type
`id` selects (int for `crInt`/`crBool`, float for `crFloat`, byte for
`crUChar`)? -/
def writeKindMatches (id : BasicId) (o : ℕ) : Write → Bool
  | .wInt o' _ => (id == .crInt || id == .crBool) && o' == o
  | .wFloat o' _ => (id == .crFloat) && o' == o
  | .wByte o' _ => (id == .crUChar) && o' == o
  | _ => false

/-- A fixed parse environment for concrete evaluations (every resource
resolves to the null handle). -/
def cPE : ParseEnv := ⟨fun _ _ => 0⟩

/-- A fixed execution environment for concrete evaluations. -/
def cEnv : ExecEnv :=
  ⟨FP.fin 0, 0, (FP.fin 0, FP.fin 0, FP.fin 0), fun _ => FP.fin 0,
   fun _ => FP.fin 0, fun _ _ => FP.fin 0⟩

/-- A zeroed 16-slot register file for concrete evaluations. -/
def buf16 : List FP := List.replicate 16 (FP.fin 0)

/-- Every instruction a mnemonic emits is arithmetic. -/
theorem TokKind.emit_isArith (k : TokKind) (v : FP) (i : ℤ) : isArith (k.emit v i) = true := by
  cases k <;> rfl

/-- The scalar tokenizer only emits arithmetic instructions (no stores,
no control, no pointer ops). -/
theorem scalarTokens_arith (script : List Char) :
    ∀ fuel p toks, scalarTokens script fuel p = Except.ok toks → ∀ i ∈ toks, isArith i = true := by
  intro fuel
  induction fuel with
  | zero =>
      intro p toks h
      simp [scalarTokens] at h
  | succ n ih =>
      intro p toks h
      rw [scalarTokens] at h
      by_cases h1 : p < script.length
      · rw [if_pos h1] at h
        by_cases h2 : script.getD p ' ' = ' '
        · rw [if_pos h2] at h; exact ih _ _ h
        · rw [if_neg h2] at h
          split at h
          · rename_i k hc
            by_cases h3 : script.length ≤ p + 1
            · rw [if_pos h3] at h; exact ih _ _ h
            · rw [if_neg h3] at h
              by_cases h4 : k.useInt = true
              · rw [if_pos h4] at h
                split at h
                · exact absurd h (by simp)
                · rename_i l hr
                  simp only [Except.ok.injEq] at h
                  subst h
                  intro i hi
                  rcases List.mem_cons.mp hi with h5 | h5
                  · subst h5; exact TokKind.emit_isArith _ _ _
                  · exact ih _ _ hr i h5
              · rw [if_neg h4] at h
                split at h
                · exact absurd h (by simp)
                · rename_i l hr
                  simp only [Except.ok.injEq] at h
                  subst h
                  intro i hi
                  rcases List.mem_cons.mp hi with h5 | h5
                  · subst h5; exact TokKind.emit_isArith _ _ _
                  · exact ih _ _ hr i h5
          · rename_i hc
            by_cases h4 : (script.getD p ' ').isDigit = true ∨ script.getD p ' ' = '.' ∨
                script.getD p ' ' = '-'
            · rw [if_pos h4] at h
              split at h
              · exact absurd h (by simp)
              · rename_i l hr
                simp only [Except.ok.injEq] at h
                subst h
                intro i hi
                rcases List.mem_cons.mp hi with h5 | h5
                · subst h5; rfl
                · exact ih _ _ hr i h5
            · rw [if_neg h4] at h; exact ih _ _ h
      · rw [if_neg h1] at h
        simp only [Except.ok.injEq] at h
        subst h
        intro i hi
        simp at hi

/-- The compiled stream of a legal scalar field (when the expression is
not the `"dir"` keyword) is a run of arithmetic instructions followed by
exactly the trailing store for the field's type and truncated offset. -/
theorem parseType_basic_decomp (pe : ParseEnv) (fuel ofs : ℕ) (id : BasicId)
    (script : List Char) (toks : List Instr)
    (hdir : dirKeyword script = false)
    (hok : parseType pe fuel ofs (.basic id) script = Except.ok toks) :
    ∃ arith, toks = arith ++ [storeInstr id (ofs % 2 ^ 16)] ∧
      ∀ i ∈ arith, isArith i = true := by
  rw [parseType] at hok
  rw [hdir] at hok
  simp only [Bool.false_eq_true, if_false] at hok
  split at hok
  · exact absurd hok (by simp)
  · split at hok
    · exact absurd hok (by simp)
    · rename_i l hr
      simp only [Except.ok.injEq] at hok
      subst hok
      exact ⟨l, rfl, scalarTokens_arith script fuel 0 l hr⟩

/-- Arithmetic instructions are not the end marker. -/
theorem isArith_ne_opEnd {i : Instr} (h : isArith i = true) : i ≠ .opEnd := by
  cases i <;> simp_all [isArith]

/-- Arithmetic instructions are not stores. -/
theorem isArith_not_store {i : Instr} (h : isArith i = true) : isStore i = false := by
  cases i <;> simp_all [isArith, isStore]

/-- Arithmetic instructions never write into the destination instance. -/
theorem step_writes_of_arith (env : ExecEnv) (s : ExecState) {i : Instr}
    (h : isArith i = true) : (step env s i).writes = s.writes := by
  cases i <;> simp_all [isArith, step]

/-- Unrolling the interpreter over a non-end instruction. -/
theorem execCode_cons (env : ExecEnv) {i : Instr} (t : List Instr) (s : ExecState)
    (h : i ≠ .opEnd) : execCode env (i :: t) s = execCode env t (step env s i) := by
  cases i <;> first | rfl | exact absurd rfl h

/-- Running an arithmetic prefix reaches the rest of the stream in some
state with the write trace untouched. -/
theorem execCode_arith_prefix (env : ExecEnv) :
    ∀ (l rest : List Instr) (s : ExecState), (∀ i ∈ l, isArith i = true) →
      ∃ s', execCode env (l ++ rest) s = execCode env rest s' ∧ s'.writes = s.writes := by
  intro l
  induction l with
  | nil => intro rest s _; exact ⟨s, rfl, rfl⟩
  | cons i t ih =>
      intro rest s hl
      have hi : isArith i = true := hl i (List.mem_cons_self i t)
      have ht : ∀ j ∈ t, isArith j = true := fun j hj => hl j (List.mem_cons_of_mem i hj)
      obtain ⟨s', h1, h2⟩ := ih rest (step env s i) ht
      refine ⟨s', ?_, ?_⟩
      · rw [List.cons_append, execCode_cons env (t ++ rest) s (isArith_ne_opEnd hi), h1]
      · rw [h2, step_writes_of_arith env s hi]

/-- A store-family step resets the accumulator to zero. -/
theorem step_store_val (env : ExecEnv) (s : ExecState) (id : BasicId) (o : ℕ) :
    (step env s (storeInstr id o)).val = FP.fin 0 := by
  cases id <;> rfl

/-- A store-family step appends exactly one write of the width class the
basic type selects, at the carried offset. -/
theorem step_store_writes (env : ExecEnv) (s : ExecState) (id : BasicId) (o : ℕ)
    (hid : id ≠ .crIllegal) :
    ∃ w, (step env s (storeInstr id o)).writes = s.writes ++ [w] ∧
      writeKindMatches id o w = true := by
  cases id
  · exact ⟨_, rfl, by simp [writeKindMatches]⟩
  · exact ⟨_, rfl, by simp [writeKindMatches]⟩
  · exact ⟨_, rfl, by simp [writeKindMatches]⟩
  · exact ⟨_, rfl, by simp [writeKindMatches]⟩
  · exact absurd rfl hid

/-- Erasing a key removes it from the map. -/
theorem mapFind_mapErase_self (m : List (String × ℕ)) (k : String) :
    mapFind (mapErase m k) k = none := by
  induction m with
  | nil => rfl
  | cons p t ih =>
      obtain ⟨k', v'⟩ := p
      by_cases h : k = k'
      · subst h; simp [mapErase, ih]
      · simp [mapErase, h, mapFind, ih]

/-- Inserting a key makes it found with the inserted value. -/
theorem mapFind_mapInsert_self (m : List (String × ℕ)) (k : String) (v : ℕ) :
    mapFind (mapInsert m k v) k = some v := by
  induction m with
  | nil => simp [mapInsert, mapFind]
  | cons p t ih =>
      obtain ⟨k', v'⟩ := p
      by_cases h : k = k'
      · simp [mapInsert, h, mapFind]
      · by_cases h2 : strLt k k' = true
        · simp [mapInsert, h, h2, mapFind]
        · simp [mapInsert, h, h2, mapFind, ih]

/-- Re-appending the saved last element restores a nonempty list. -/
theorem dropLast_append_getD {α : Type} (l : List α) (d : α) (h : l ≠ []) :
    l.dropLast ++ [l.getD (l.length - 1) d] = l := by
  induction l with
  | nil => exact absurd rfl h
  | cons a t ih =>
      cases t with
      | nil => rfl
      | cons b t' =>
          have hd : (a :: b :: t').dropLast = a :: (b :: t').dropLast := rfl
          rw [hd]
          have hlen : (a :: b :: t').length - 1 = (b :: t').length - 1 + 1 := by
            simp
          rw [hlen]
          have hg : (a :: b :: t').getD ((b :: t').length - 1 + 1) d
              = (b :: t').getD ((b :: t').length - 1) d := rfl
          rw [hg, List.cons_append, ih (by simp)]

/-- The swap-and-pop of `Reload`'s single-tag branch, followed by pushing
the displaced element back and restoring the vacated slot, rebuilds the
original vector (for any in-range index and any temporarily stored value). -/
theorem set_dropLast_restore {α : Type} (l : List α) (d : α) :
    ∀ (ci : ℕ) (x : α), ci < l.length →
      (((l.set ci x).dropLast) ++ [l.getD (l.length - 1) d]).set ci (l.getD ci d) = l := by
  induction l with
  | nil => intro ci x h; simp at h
  | cons a t ih =>
      intro ci x h
      cases ci with
      | zero =>
          cases t with
          | nil => rfl
          | cons b t' =>
              have h1 : ((a :: b :: t').set 0 x).dropLast = x :: (b :: t').dropLast := rfl
              have h2 : (a :: b :: t').getD ((a :: b :: t').length - 1) d
                  = (b :: t').getD ((b :: t').length - 1) d := rfl
              rw [h1, h2, List.cons_append, List.set]
              rw [dropLast_append_getD (b :: t') d (by simp)]
              rfl
      | succ k =>
          have hk : k < t.length := by simpa using h
          have ht : t ≠ [] := by
            intro he; rw [he] at hk; simp at hk
          have h1 : ((a :: t).set (k + 1) x).dropLast = a :: (t.set k x).dropLast := by
            cases t with
            | nil => exact absurd rfl ht
            | cons b t' =>
                cases k <;> rfl
          have h2 : (a :: t).getD ((a :: t).length - 1) d = t.getD (t.length - 1) d := by
            cases t with
            | nil => exact absurd rfl ht
            | cons b t' => rfl
          have h3 : (a :: t).getD (k + 1) d = t.getD k d := rfl
          rw [h1, h2, h3, List.cons_append, List.set]
          rw [ih k x hk]

/-! ## Concrete fixtures for evaluations and witnesses -/

/-- A compiled definition used by the registry evaluations. -/
def cegA : CEGData := ⟨[⟨1, 1, []⟩], defaultGroundFlash, false⟩

/-- A second, distinct compiled definition. -/
def cegB : CEGData := ⟨[⟨2, 1, []⟩], defaultGroundFlash, false⟩

/-- A recompiled (changed) version of `cegA`'s definition. -/
def cegA2 : CEGData := ⟨[⟨9, 9, []⟩], defaultGroundFlash, true⟩

/-- Definition tables holding valid entries for tags `a` and `b`. -/
def defsAB : String → Option CEGData :=
  fun t => if t = "a" then some cegA else if t = "b" then some cegB else none

/-- The cache after loading tag `b` and then tag `a` (so `b ↦ 0`, `a ↦ 1`,
and `a`'s data sits in the vector's last slot). -/
def stAB : CEGState := (Load defsAB "a" (Load defsAB "b" ⟨[], []⟩).2).2

/-- `defsAB` after tag `a`'s source definition changed to `cegA2`. -/
def defsABfresh : String → Option CEGData :=
  fun t => if t = "a" then some cegA2 else defsAB t

/-- Definition tables in which tag `b`'s entry has become invalid. -/
def defsOnlyA : String → Option CEGData := fun t => if t = "a" then some cegA else none

/-- A fixed explosion environment for concrete evaluations. -/
def xEnv : ExplosionEnv :=
  ⟨FP.fin 0, FP.fin 0, FP.fin 0, (FP.fin 0, FP.fin 0, FP.fin 0), false, FP.fin 0, false,
   fun _ _ _ => FP.fin 0, fun _ => FP.fin 0, fun _ _ => FP.fin 0, buf16⟩

/-! ## The claims -/

/-- C1: the claim says every register-indexing operand emitted by
`ParseExplosionCode` lies in `[0, 16)` so every register access stays
inside the 16-slot file.  The code clamps with
`std::max(0, std::min(16, v))`, whose upper bound is inclusive: the
expression `y16` on a float field compiles to `YANK` with operand 16, and
executing it accesses `buffer[16]` — one slot past the register file (an
out-of-bounds array access). -/
theorem c1_register_operand_sixteen_oob :
    parseType cPE 10 0 (.basic .crFloat) "y16".toList = .ok [.opYank 16, .opStoreF 0] ∧
    (ExecuteExplosionCode cEnv [.opYank 16, .opStoreF 0, .opEnd] buf16).oobReg = true := by
  constructor
  · rw [parseType]; decide
  · decide

/-- C2 counterexample: a `SAWTOOTH` instruction with float operand 0 sets
the accumulator to NaN (the C++ computes `val -= 0 * floor(val / 0)` with
an unguarded division), refuting the claim that the accumulator is left
unchanged and never becomes NaN.  Here the prior accumulator value is 0
(`0 / 0 = NaN`, and NaN propagates through `0 * ⬝` and the subtraction). -/
theorem c2_sawtooth_zero_sets_nan :
    (ExecuteExplosionCode cEnv [.opSawtooth (FP.fin 0), .opEnd] buf16).val = FP.nan ∧
    FP.nan ≠ FP.fin 0 := by
  decide

/-- C2 (amended): for every prior interpreter state, `DISCRETE` with float
operand 0 sets the accumulator to 0 (its division goes through
`SafeDivide`, which treats division by zero as 0), while `SAWTOOTH` with
float operand 0 sets the accumulator to NaN — its division is unguarded,
so the zero modulus does not leave the accumulator unchanged. -/
theorem c2_zero_operand_semantics (env : ExecEnv) (s : ExecState) :
    (step env s (.opDiscrete (FP.fin 0))).val = FP.fin 0 ∧
    (step env s (.opSawtooth (FP.fin 0))).val = FP.nan := by
  constructor
  · show (FP.fin 0).mul (FP.floorF (SafeDivide s.val (FP.fin 0))) = FP.fin 0
    simp [SafeDivide, FP.floorF, FP.mul]
  · show s.val.sub ((FP.fin 0).mul (FP.floorF (s.val.div (FP.fin 0)))) = FP.nan
    cases hv : s.val with
    | fin q =>
        by_cases hq : q = 0
        · subst hq; simp [FP.div, FP.mul, FP.sub, FP.add, FP.neg, FP.floorF]
        · by_cases hpos : 0 < q
          · simp [FP.div, hq, hpos, FP.floorF, FP.mul, FP.sub, FP.add, FP.neg]
          · simp [FP.div, hq, hpos, FP.floorF, FP.mul, FP.sub, FP.add, FP.neg]
    | inf => simp [FP.div, FP.mul, FP.sub, FP.add, FP.neg, FP.floorF]
    | ninf => simp [FP.div, FP.mul, FP.sub, FP.add, FP.neg, FP.floorF]
    | nan => simp [FP.div, FP.mul, FP.sub, FP.add, FP.neg, FP.floorF]

/-- C3: the claim (and the code's own comment) says an empty-tag `Reload`
preserves every tag's identifier.  It does not: the reload clears the
cache and re-loads tags in `std::map` iteration order (sorted by tag), so
identifiers follow that order rather than the original load order.
Loading `b` (id 0) then `a` (id 1) and reloading with the empty tag
leaves `a ↦ 0` and `b ↦ 1` — both identifiers changed. -/
theorem c3_empty_reload_permutes_identifiers :
    (Load defsAB "b" ⟨[], []⟩).1 = 0 ∧
    (Load defsAB "a" (Load defsAB "b" ⟨[], []⟩).2).1 = 1 ∧
    mapFind (Reload defsAB "" stAB).explosionIDs "a" = some 0 ∧
    mapFind (Reload defsAB "" stAB).explosionIDs "b" = some 1 := by
  decide

/-- C4: the claim says a successful single-tag reload maps the tag to the
freshly compiled data.  When the tag's entry occupies the **last** vector
slot and at least two definitions are cached, the final swap-back
(`explosionData[cegIndex] = explosionData[numCEGs-1]` then
`explosionData[numCEGs-1] = tmpCEG`) hits the same slot twice and
overwrites the fresh compile with the old data: after reloading tag `a`
(slot 1 of 2) with a changed definition `cegA2`, the tag still maps to
the stale `cegA`. -/
theorem c4_last_slot_reload_keeps_stale_data :
    mapFind stAB.explosionIDs "a" = some 1 ∧
    defsABfresh "a" = some cegA2 ∧
    mapFind (Reload defsABfresh "a" stAB).explosionIDs "a" = some 1 ∧
    (Reload defsABfresh "a" stAB).explosionData.getD 1 defaultCEG = cegA ∧
    cegA ≠ cegA2 := by
  decide

/-- C5: when the single-tag `Reload` fails to recompile (its `Load`
returns the invalid identifier because the tag's definition table became
invalid), the previously compiled data vector is fully restored and the
tag still maps to its previous identifier. -/
theorem c5_failed_reload_restores_state (defs : String → Option CEGData) (tag : String)
    (st : CEGState) (cegIndex : ℕ)
    (htag : tag ≠ "")
    (hfind : mapFind st.explosionIDs tag = some cegIndex)
    (hfail : defs tag = none)
    (hlen : cegIndex < st.explosionData.length) :
    (Reload defs tag st).explosionData = st.explosionData ∧
    mapFind (Reload defs tag st).explosionIDs tag = some cegIndex := by
  simp only [Reload, if_neg htag, hfind]
  simp only [Load, mapFind_mapErase_self, hfail]
  constructor
  · exact set_dropLast_restore st.explosionData defaultCEG cegIndex _ hlen
  · exact mapFind_mapInsert_self _ tag cegIndex

/-- C5 witness: the rollback at a concrete failed reload of tag `b`. -/
theorem c5_failed_reload_restores_state_witness :
    ("b" : String) ≠ "" ∧ mapFind stAB.explosionIDs "b" = some 0 ∧ defsOnlyA "b" = none ∧
    0 < stAB.explosionData.length ∧
    ((Reload defsOnlyA "b" stAB).explosionData = stAB.explosionData ∧
     mapFind (Reload defsOnlyA "b" stAB).explosionIDs "b" = some 0) :=
  ⟨by decide, by decide, by decide, by decide,
   c5_failed_reload_restores_state defsOnlyA "b" stAB 0 (by decide) (by decide) (by decide)
     (by decide)⟩

/-- C6: executing the stream compiled from a scalar (non-`"dir"`)
expression for a legal basic-typed field performs exactly one write into
the destination instance, at the field's byte offset with the width class
the field's type selects, and leaves the accumulator at 0 (the write trace
ends right after the single trailing store, which resets `val`). -/
theorem c6_scalar_stream_single_write (pe : ParseEnv) (env : ExecEnv) (fuel ofs : ℕ)
    (id : BasicId) (script : List Char) (toks : List Instr) (initBuf : List FP)
    (hofs : ofs < 2 ^ 16)
    (hdir : dirKeyword script = false)
    (hok : parseType pe fuel ofs (.basic id) script = Except.ok toks) :
    (ExecuteExplosionCode env (toks ++ [.opEnd]) initBuf).writes.length = 1 ∧
    writeKindMatches id ofs
      ((ExecuteExplosionCode env (toks ++ [.opEnd]) initBuf).writes.getD 0 (.wInt 0 0)) = true ∧
    (ExecuteExplosionCode env (toks ++ [.opEnd]) initBuf).val = FP.fin 0 := by
  obtain ⟨arith, htoks, harith⟩ := parseType_basic_decomp pe fuel ofs id script toks hdir hok
  have hid : id ≠ .crIllegal := by
    intro he
    subst he
    rw [parseType, hdir] at hok
    simp at hok
  subst htoks
  rw [Nat.mod_eq_of_lt hofs] at *
  unfold ExecuteExplosionCode
  rw [List.append_assoc]
  obtain ⟨s', h1, h2⟩ :=
    execCode_arith_prefix env arith ([storeInstr id ofs] ++ [.opEnd]) (initState initBuf) harith
  rw [h1]
  have hstep : execCode env ([storeInstr id ofs] ++ [Instr.opEnd]) s'
      = step env s' (storeInstr id ofs) := by
    rw [List.singleton_append,
        execCode_cons env [Instr.opEnd] s' (by cases id <;> simp [storeInstr])]
    rfl
  rw [hstep]
  obtain ⟨w, hw, hkind⟩ := step_store_writes env s' id ofs hid
  rw [hw, h2]
  simp [initState, hkind, step_store_val]

/-- C6 witness: the compiled stream of `y1` on a float field at offset 4
writes exactly once, as a float at offset 4, and ends with `val = 0`. -/
theorem c6_scalar_stream_single_write_witness :
    (4:ℕ) < 2 ^ 16 ∧ dirKeyword "y1".toList = false ∧
    parseType cPE 10 4 (.basic .crFloat) "y1".toList = .ok [.opYank 1, .opStoreF 4] ∧
    ((ExecuteExplosionCode cEnv ([.opYank 1, .opStoreF 4] ++ [.opEnd]) buf16).writes.length = 1 ∧
     writeKindMatches .crFloat 4
       ((ExecuteExplosionCode cEnv ([.opYank 1, .opStoreF 4] ++ [.opEnd]) buf16).writes.getD 0
         (.wInt 0 0)) = true ∧
     (ExecuteExplosionCode cEnv ([.opYank 1, .opStoreF 4] ++ [.opEnd]) buf16).val = FP.fin 0) :=
  ⟨by decide, by decide, by simp only [parseType]; decide,
   c6_scalar_stream_single_write cPE cEnv 10 4 .crFloat "y1".toList
     [.opYank 1, .opStoreF 4] buf16 (by decide) (by decide)
     (by simp only [parseType]; decide)⟩

/-- C7 counterexample: on an int-typed scalar field the expression `dir`
short-circuits the scalar path — the emitted stream is a single `DIR`
instruction and no trailing store at all, refuting the claim for every
scalar field as stated. -/
theorem c7_dir_expression_emits_no_store :
    parseType cPE 5 0 (.basic .crInt) "dir".toList = .ok [.opDir 0] ∧
    isStore (.opDir 0) = false := by
  constructor
  · rw [parseType]; decide
  · decide

/-- C7 (amended): for every scalar field of legal basic type whose
expression is not the `"dir"` keyword, the compiled stream ends with
exactly one trailing store — `STOREI` for int and bool, `STOREF` for
float, `STOREC` for uchar — carrying the field's byte offset truncated to
a 2-byte unsigned value, and no store occurs before it. -/
theorem c7_trailing_store_appended (pe : ParseEnv) (fuel ofs : ℕ) (id : BasicId)
    (script : List Char) (toks : List Instr)
    (hdir : dirKeyword script = false)
    (hok : parseType pe fuel ofs (.basic id) script = Except.ok toks) :
    toks.getLast? = some (storeInstr id (ofs % 2 ^ 16)) ∧
    ∀ i ∈ toks.dropLast, isStore i = false := by
  obtain ⟨arith, htoks, harith⟩ := parseType_basic_decomp pe fuel ofs id script toks hdir hok
  subst htoks
  refine ⟨List.getLast?_concat _, ?_⟩
  rw [List.dropLast_concat]
  intro i hi
  exact isArith_not_store (harith i hi)

/-- C7 witness: `y1` on an int field at offset 4 compiles to its token
followed by the single trailing `STOREI 4`. -/
theorem c7_trailing_store_appended_witness :
    dirKeyword "y1".toList = false ∧
    parseType cPE 10 4 (.basic .crInt) "y1".toList = .ok [.opYank 1, .opStoreI 4] ∧
    ([Instr.opYank 1, Instr.opStoreI 4].getLast? = some (storeInstr .crInt (4 % 2 ^ 16)) ∧
     ∀ i ∈ [Instr.opYank 1, Instr.opStoreI 4].dropLast, isStore i = false) :=
  ⟨by decide, by simp only [parseType]; decide,
   c7_trailing_store_appended cPE 10 4 .crInt "y1".toList [.opYank 1, .opStoreI 4]
     (by decide) (by simp only [parseType]; decide)⟩

/-- C8: for every field type and every (16-bit-representable) offset,
when the expression text up to the first `;` equals the keyword `dir`,
the compiler emits exactly one `DIR` instruction carrying that offset
(no tokenization, no trailing store), and executing a `DIR` instruction
appends one verbatim write of the supplied direction vector at the
offset without modifying the accumulator. -/
theorem c8_dir_keyword_emits_dir (pe : ParseEnv) (env : ExecEnv) (fuel ofs : ℕ)
    (t : CregType) (script : List Char) (s : ExecState)
    (hdir : dirKeyword script = true) (hofs : ofs < 2 ^ 16) :
    parseType pe fuel ofs t script = .ok [.opDir ofs] ∧
    (step env s (.opDir ofs)).val = s.val ∧
    (step env s (.opDir ofs)).writes = s.writes ++ [.wVec ofs env.dir] := by
  refine ⟨?_, rfl, rfl⟩
  rw [parseType.eq_def]
  simp only [hdir, if_true, Nat.mod_eq_of_lt hofs]

/-- C8 witness: `dir` on a colour-map (resource) field at offset 8. -/
theorem c8_dir_keyword_emits_dir_witness :
    dirKeyword "dir".toList = true ∧ (8:ℕ) < 2 ^ 16 ∧
    (parseType cPE 5 8 (.resource .colorMap) "dir".toList = .ok [.opDir 8] ∧
     (step cEnv (initState buf16) (.opDir 8)).val = (initState buf16).val ∧
     (step cEnv (initState buf16) (.opDir 8)).writes
       = (initState buf16).writes ++ [.wVec 8 cEnv.dir]) :=
  ⟨by decide, by decide,
   c8_dir_keyword_emits_dir cPE cEnv 5 8 (.resource .colorMap) "dir".toList (initState buf16)
     (by decide) (by decide)⟩

/-- C9: the claim says a composite expression with fewer sub-expressions
than members leaves the remaining members without instructions.  In the
code `start = end + 1` is computed in `size_type`, so after the last
sub-expression (`end = npos`) the cursor wraps to 0 and the remaining
members re-parse the expression from its start: compiling `y1` for a
two-member object emits code for **both** members, and executing it
writes at both offsets. -/
theorem c9_wraparound_reparses_members :
    parseType cPE 50 0 (.object [(0, .basic .crFloat), (4, .basic .crFloat)]) "y1".toList
      = .ok [.opYank 1, .opStoreF 0, .opYank 1, .opStoreF 4] ∧
    (ExecuteExplosionCode cEnv [.opYank 1, .opStoreF 0, .opYank 1, .opStoreF 4, .opEnd]
        buf16).writes
      = [.wFloat 0 (FP.fin 0), .wFloat 4 (FP.fin 0)] := by
  constructor
  · simp only [parseType, parseObjMembers]
    decide
  · decide

/-- C10: calling `Explosion` with an identifier that is none of the three
reserved values and not smaller than the number of cached definitions
returns false, produces no spawned instances and no ground flash, and
leaves the cache state unchanged. -/
theorem c10_out_of_range_id_rejected (env : ExplosionEnv) (st : CEGState) (id : ℕ)
    (h1 : id ≠ EXPLOSION_ID_INVALID) (h2 : id ≠ EXPLOSION_ID_STANDARD)
    (h3 : id ≠ EXPLOSION_ID_SPAWNER) (h4 : st.explosionData.length ≤ id) :
    Explosion env st id = (false, [], none, st) := by
  simp [Explosion, h1, h2, h3, h4]

/-- C10 witness: identifier 5 against an empty cache. -/
theorem c10_out_of_range_id_rejected_witness :
    (5:ℕ) ≠ EXPLOSION_ID_INVALID ∧ (5:ℕ) ≠ EXPLOSION_ID_STANDARD ∧
    (5:ℕ) ≠ EXPLOSION_ID_SPAWNER ∧ (⟨[], []⟩ : CEGState).explosionData.length ≤ 5 ∧
    Explosion xEnv ⟨[], []⟩ 5 = (false, [], none, (⟨[], []⟩ : CEGState)) :=
  ⟨by decide, by decide, by decide, by decide,
   c10_out_of_range_id_rejected xEnv ⟨[], []⟩ 5 (by decide) (by decide) (by decide) (by decide)⟩
